import Mathlib

/-!
# Verification of the donkeycar training pipeline (`donkeycar/templates/train.py`)

A shallow embedding of the data pipeline of `train.py`: tub-record keying
(`make_key` / `make_next_key`), record ingestion (`collate_records`), the
checkpoint callback (`MyCPCallback`), the streaming batch generator inside
`train`, the sequence collation and look-ahead target assembly inside
`sequence_train`, and the `multi_train` dispatch.

Machine floats of the Python source are modelled by `Rat`; Python dicts by
association lists with unique keys (in insertion order); the filesystem, the
external image loader (`load_scaled_image_arr`), the augmenter
(`augment_image`) and the categorical binner (`linear_bin`, both from
`donkeycar.utils`, outside this file's source) are explicit parameters.
-/

namespace TrainSpec

/-! ## Decimal rendering of naturals

Python's `str(index)` on a nonnegative int and Lean's `Nat.repr` both produce
the plain decimal digits.  `make_key` concatenates a directory path with this
rendering, so we need injectivity of the rendering itself, which we derive
from a structural description of `Nat.toDigitsCore`. -/

/-- Decimal digits of `n`, most significant first.  Structural version of what
`Nat.toDigitsCore 10` computes with sufficient fuel. -/
def decDigits (n : Nat) : List Char :=
  if _h : n < 10 then [Nat.digitChar n]
  else
    have : n / 10 < n := Nat.div_lt_self (by omega) (by omega)
    decDigits (n / 10) ++ [Nat.digitChar (n % 10)]

theorem decDigits_of_lt {n : Nat} (h : n < 10) : decDigits n = [Nat.digitChar n] := by
  rw [decDigits, dif_pos h]

theorem decDigits_of_ge {n : Nat} (h : ¬ n < 10) :
    decDigits n = decDigits (n / 10) ++ [Nat.digitChar (n % 10)] := by
  rw [decDigits, dif_neg h]

theorem toDigitsCore_eq_decDigits :
    ∀ (fuel n : Nat) (ds : List Char), n < fuel →
      Nat.toDigitsCore 10 fuel n ds = decDigits n ++ ds := by
  intro fuel
  induction fuel with
  | zero => intro n ds h; omega
  | succ fuel ih =>
    intro n ds h
    show (if n / 10 = 0 then Nat.digitChar (n % 10) :: ds
          else Nat.toDigitsCore 10 fuel (n / 10) (Nat.digitChar (n % 10) :: ds))
        = decDigits n ++ ds
    by_cases hz : n / 10 = 0
    · have hn : n < 10 := by omega
      rw [if_pos hz, decDigits_of_lt hn, Nat.mod_eq_of_lt hn]
      rfl
    · have hge : ¬ n < 10 := by omega
      have hlt : n / 10 < fuel := by
        have : n / 10 < n := Nat.div_lt_self (by omega) (by omega)
        omega
      rw [if_neg hz, ih (n / 10) _ hlt, decDigits_of_ge hge, List.append_assoc]
      rfl

theorem toDigits_eq_decDigits (n : Nat) : Nat.toDigits 10 n = decDigits n := by
  have h := toDigitsCore_eq_decDigits (n + 1) n [] (Nat.lt_succ_self n)
  simpa [Nat.toDigits] using h

/-- Numeric value of a decimal digit character. -/
def valDigit (c : Char) : Nat := c.toNat - 48

theorem valDigit_digitChar {d : Nat} (h : d < 10) : valDigit (Nat.digitChar d) = d := by
  interval_cases d <;> rfl

/-- Read decimal digits back into a number, starting from accumulator `a`. -/
def readDigitsFrom (a : Nat) (l : List Char) : Nat :=
  l.foldl (fun acc c => 10 * acc + valDigit c) a

theorem readDigitsFrom_decDigits :
    ∀ (n a : Nat), readDigitsFrom a (decDigits n) = a * 10 ^ (decDigits n).length + n := by
  intro n
  induction n using Nat.strong_induction_on with
  | _ n ih =>
    intro a
    by_cases h : n < 10
    · rw [decDigits_of_lt h]
      show 10 * a + valDigit (Nat.digitChar n) = a * 10 ^ 1 + n
      rw [valDigit_digitChar h]; ring
    · rw [decDigits_of_ge h]
      have hdiv : n / 10 < n := Nat.div_lt_self (by omega) (by omega)
      have hrec := ih (n / 10) hdiv a
      unfold readDigitsFrom at *
      rw [List.foldl_append, hrec]
      show 10 * (a * 10 ^ (decDigits (n / 10)).length + n / 10) + valDigit (Nat.digitChar (n % 10))
          = a * 10 ^ (decDigits (n / 10) ++ [Nat.digitChar (n % 10)]).length + n
      rw [valDigit_digitChar (Nat.mod_lt n (by omega)), List.length_append,
        List.length_singleton, pow_succ]
      have := Nat.div_add_mod n 10
      ring_nf
      omega

theorem decDigits_injective : Function.Injective decDigits := by
  intro m n h
  have hm := readDigitsFrom_decDigits m 0
  have hn := readDigitsFrom_decDigits n 0
  rw [h] at hm
  omega

theorem repr_injective : Function.Injective Nat.repr := by
  intro m n h
  apply decDigits_injective
  have : (Nat.toDigits 10 m).asString = (Nat.toDigits 10 n).asString := h
  rw [toDigits_eq_decDigits, toDigits_eq_decDigits] at this
  have : (decDigits m).asString.data = (decDigits n).asString.data := by rw [this]
  simpa [List.asString] using this

theorem natToString_injective : Function.Injective (fun n : Nat => toString n) :=
  repr_injective

/-! ## Tub management: `make_key` and `make_next_key` (train.py lines 104-112) -/

/-- `make_key(sample)`: `sample['tub_path'] + str(sample['index'])`. -/
def make_key (tub_path : String) (index : Nat) : String :=
  tub_path ++ toString index

/-- `make_next_key(sample, index_offset)`:
`sample['tub_path'] + str(sample['index'] + index_offset)`. -/
def make_next_key (tub_path : String) (index index_offset : Nat) : String :=
  tub_path ++ toString (index + index_offset)

theorem string_append_left_cancel {s t u : String} (h : s ++ t = s ++ u) : t = u := by
  have hd : s.data ++ t.data = s.data ++ u.data := by
    have h1 : (s ++ t).data = (s ++ u).data := by rw [h]
    simpa using h1
  exact String.ext (List.append_cancel_left hd)

/-- C1 fails: the key of directory "a", frame 12 collides with the key of
directory "a1", frame 2, although the (tub_path, index) pairs differ. -/
theorem C1_counterexample :
    make_key "a" 12 = make_key "a1" 2 ∧ ("a", (12 : Nat)) ≠ ("a1", (2 : Nat)) := by
  refine ⟨by decide, by decide⟩

theorem make_key_inj_fixed_dir (p : String) (i j : Nat)
    (h : make_key p i = make_key p j) : i = j := by
  have := string_append_left_cancel (s := p) h
  exact natToString_injective this

/-- C1 (amended): within one source directory (fixed `tub_path`), `make_key`
is injective in the frame index: distinct per-directory frame indices always
produce distinct keys.  Across directories the key can collide whenever one
directory path extended with decimal digits equals another. -/
theorem C1_make_key_inj_same_tub (p : String) (i j : Nat)
    (h : make_key p i = make_key p j) : i = j :=
  make_key_inj_fixed_dir p i j h

/-- Witness that the hypothesis of `C1_make_key_inj_same_tub` is satisfiable. -/
theorem C1_witness : (5 : Nat) = 5 :=
  C1_make_key_inj_same_tub "a" 5 5 rfl

/-! ## Data model

`Rat` stands in for Python floats; a numpy array is a nested list of
rationals; a record path carries the directory (`os.path.dirname`) and the
frame index (`get_record_index`, an external helper of `donkeycar.utils`). -/

/-- The JSON contents of one per-frame record file.  `imu` is present exactly
when all six `imu/...` fields parse; `behavior` when
`behavior/one_hot_state_array` is present. -/
structure JsonData where
  cam_image_array : String
  user_angle : Rat
  user_throttle : Rat
  imu : Option (List Rat)
  behavior : Option (List Rat)
deriving DecidableEq

/-- A nested numpy-style array (rectangular in all uses here). -/
inductive NpArr where
  | scalar (v : Rat)
  | arr (xs : List NpArr)

/-- The shape of a (rectangular) nested array, as numpy reports it. -/
def NpArr.shape : NpArr → List Nat
  | .scalar _ => []
  | .arr [] => [0]
  | .arr (x :: xs) => (xs.length + 1) :: x.shape

/-- A control target: a raw float, or the one-hot bin vector that
`dk.utils.linear_bin` produces for categorical model types. -/
inductive Ctl where
  | scalar (v : Rat)
  | binned (v : List Rat)
deriving DecidableEq

/-- A record-file path, split into `os.path.dirname(record_path)` and the
numeric index `get_record_index(record_path)` extracts from the filename. -/
structure RecordPath where
  dir : String
  idx : Nat
deriving DecidableEq

/-- One ingested sample: the dict built by `collate_records`
(train.py lines 119-175). -/
structure Sample where
  tub_path : String
  index : Nat
  record_path : RecordPath
  image_path : String
  json_data : JsonData
  angle : Ctl
  throttle : Ctl
  imu_array : Option (List Rat)
  behavior_arr : Option (List Rat)
  img_data : Option NpArr
  train : Bool

/-- `gen_records`: a Python dict from key to sample, modelled as an
association list in insertion order with unique keys. -/
abbrev Store := List (String × Sample)

def Store.find? (st : Store) (k : String) : Option Sample :=
  match st with
  | [] => none
  | (k', s) :: rest => if k' = k then some s else Store.find? rest k

/-- `data.pop(key, None)`. -/
def Store.erase (st : Store) (k : String) : Store :=
  match st with
  | [] => []
  | (k', s) :: rest => if k' = k then rest else (k', s) :: Store.erase rest k

/-- `record['img_data'] = img_arr`: mutate the sample stored under `k`
(Python mutates the shared dict object; with unique keys this is the entry
looked up). -/
def Store.setImg (st : Store) (k : String) (a : NpArr) : Store :=
  match st with
  | [] => []
  | (k', s) :: rest =>
    (if k' = k then (k', { s with img_data := some a }) else (k', s)) :: Store.setImg rest k a

def Store.keys (st : Store) : List String := st.map (·.1)

/-- The filesystem: record files that load as JSON (`none` models an
unreadable or malformed file) and which image files exist
(`os.path.exists`). -/
structure FS where
  records : RecordPath → Option JsonData
  files : String → Bool

/-- External collaborators of the pipeline: `load_scaled_image_arr`,
`augment_image`, `dk.utils.linear_bin` (as used for angle, and for throttle
with `N=20, offset=0, R=MODEL_CATEGORICAL_MAX_THROTTLE_RANGE`),
`get_image_index`, and the cv2 resize/normalize/slice used for the latent
image target. -/
structure Ext where
  load_scaled_image_arr : String → Option NpArr
  augment_image : NpArr → NpArr
  linear_bin_angle : Rat → List Rat
  linear_bin_throttle : Rat → List Rat
  get_image_index : String → Nat
  latent_image_target : NpArr → NpArr

/-! ## `collate_records` (train.py lines 115-175)

The stream `rng` supplies the successive `random.uniform(0., 1.0)` draws;
one draw is consumed per inserted record, exactly where the source calls
`random.uniform`. -/

def collate_records (ext : Ext) (categorical : Bool) (fs : FS) :
    List RecordPath → Store → List Rat → Store × List Rat
  | [], st, rng => (st, rng)
  | rp :: rest, st, rng =>
    let key := make_key rp.dir rp.idx
    if (Store.find? st key).isSome then
      collate_records ext categorical fs rest st rng
    else
      match fs.records rp with
      | none => collate_records ext categorical fs rest st rng
      | some jd =>
        let image_path := rp.dir ++ "/" ++ jd.cam_image_array
        let u := rng.headD 0
        let sample : Sample :=
          { tub_path := rp.dir
            index := rp.idx
            record_path := rp
            image_path := image_path
            json_data := jd
            angle := if categorical then .binned (ext.linear_bin_angle jd.user_angle)
                     else .scalar jd.user_angle
            throttle := if categorical then .binned (ext.linear_bin_throttle jd.user_throttle)
                        else .scalar jd.user_throttle
            imu_array := jd.imu
            behavior_arr := jd.behavior
            img_data := none
            train := decide (u > 1/5) }
        collate_records ext categorical fs rest (st ++ [(key, sample)]) rng.tail

theorem find?_append (l1 l2 : Store) (k : String) :
    Store.find? (l1 ++ l2) k =
      match Store.find? l1 k with
      | some s => some s
      | none => Store.find? l2 k := by
  induction l1 with
  | nil => rfl
  | cons e rest ih =>
    obtain ⟨k', s⟩ := e
    by_cases h : k' = k
    · simp [Store.find?, h]
    · simp [Store.find?, h, ih]

/-- An entry already in the store is never touched by `collate_records`:
the duplicate-key path is `continue`, and fresh keys are appended. -/
theorem collate_preserves (ext : Ext) (categorical : Bool) (fs : FS) :
    ∀ (records : List RecordPath) (st : Store) (rng : List Rat) (k : String) (s : Sample),
      Store.find? st k = some s →
      Store.find? (collate_records ext categorical fs records st rng).1 k = some s := by
  intro records
  induction records with
  | nil => intro st rng k s h; exact h
  | cons rp rest ih =>
    intro st rng k s h
    rw [collate_records]
    by_cases hc : (Store.find? st (make_key rp.dir rp.idx)).isSome
    · simp only [hc, if_true]
      exact ih st rng k s h
    · simp only [hc, if_false]
      cases hj : fs.records rp with
      | none => exact ih st rng k s h
      | some jd =>
        apply ih
        rw [find?_append, h]

theorem collate_mono (ext : Ext) (categorical : Bool) (fs : FS)
    (records : List RecordPath) (st : Store) (rng : List Rat) (k : String)
    (h : (Store.find? st k).isSome) :
    (Store.find? (collate_records ext categorical fs records st rng).1 k).isSome := by
  obtain ⟨s, hs⟩ := Option.isSome_iff_exists.mp h
  rw [collate_preserves ext categorical fs records st rng k s hs]
  rfl

/-- After a run of `collate_records`, every listed record either has its key
in the store or fails to load as JSON. -/
theorem collate_exhaustive (ext : Ext) (categorical : Bool) (fs : FS) :
    ∀ (records : List RecordPath) (st : Store) (rng : List Rat),
      ∀ rp ∈ records,
        (Store.find? (collate_records ext categorical fs records st rng).1
          (make_key rp.dir rp.idx)).isSome ∨ fs.records rp = none := by
  intro records
  induction records with
  | nil => intro st rng rp h; cases h
  | cons rp0 rest ih =>
    intro st rng rp hmem
    rw [collate_records]
    rcases List.mem_cons.mp hmem with heq | htail
    · subst heq
      by_cases hc : (Store.find? st (make_key rp.dir rp.idx)).isSome
      · simp only [hc, if_true]
        exact Or.inl (collate_mono ext categorical fs rest st rng _ hc)
      · simp only [hc, if_false]
        cases hj : fs.records rp with
        | none => exact Or.inr rfl
        | some jd =>
          left
          apply collate_mono
          rw [find?_append]
          have hnone : Store.find? st (make_key rp.dir rp.idx) = none :=
            Option.not_isSome_iff_eq_none.mp hc
          rw [hnone]
          simp [Store.find?]
    · by_cases hc : (Store.find? st (make_key rp0.dir rp0.idx)).isSome
      · simp only [hc, if_true]
        exact ih st rng rp htail
      · simp only [hc, if_false]
        cases hj : fs.records rp0 with
        | none => exact ih st rng rp htail
        | some jd => exact ih _ _ rp htail

/-- If every listed record is already covered (key present, or unloadable),
`collate_records` is the identity on both the store and the random stream. -/
theorem collate_skip (ext : Ext) (categorical : Bool) (fs : FS) :
    ∀ (records : List RecordPath) (st : Store) (rng : List Rat),
      (∀ rp ∈ records,
        (Store.find? st (make_key rp.dir rp.idx)).isSome ∨ fs.records rp = none) →
      collate_records ext categorical fs records st rng = (st, rng) := by
  intro records
  induction records with
  | nil => intro st rng _; rfl
  | cons rp rest ih =>
    intro st rng h
    rw [collate_records]
    rcases h rp (List.mem_cons_self rp rest) with hc | hj
    · simp only [hc, if_true]
      exact ih st rng (fun r hr => h r (List.mem_cons_of_mem rp hr))
    · by_cases hc : (Store.find? st (make_key rp.dir rp.idx)).isSome
      · simp only [hc, if_true]
        exact ih st rng (fun r hr => h r (List.mem_cons_of_mem rp hr))
      · simp only [hc, if_false, hj]
        exact ih st rng (fun r hr => h r (List.mem_cons_of_mem rp hr))

/-- C6: re-running `collate_records` over the same record paths is the
identity on the store (nothing inserted, size unchanged), and an entry whose
key is already present is never modified or replaced. -/
theorem C6_collate_idempotent (ext : Ext) (categorical : Bool) (fs : FS)
    (records : List RecordPath) (st : Store) (rng rng' : List Rat) :
    (collate_records ext categorical fs records
        (collate_records ext categorical fs records st rng).1 rng')
      = ((collate_records ext categorical fs records st rng).1, rng') ∧
    (∀ (k : String) (s : Sample), Store.find? st k = some s →
      Store.find? (collate_records ext categorical fs records st rng).1 k = some s) := by
  constructor
  · exact collate_skip ext categorical fs records _ rng'
      (fun rp hrp => collate_exhaustive ext categorical fs records st rng rp hrp)
  · intro k s h
    exact collate_preserves ext categorical fs records st rng k s h

/-! ## Concrete fixtures for counterexamples and witnesses -/

/-- A concrete instantiation of the external collaborators. -/
def ext0 : Ext :=
  { load_scaled_image_arr := fun _ => some (.scalar 0)
    augment_image := fun a => a
    linear_bin_angle := fun _ => []
    linear_bin_throttle := fun _ => []
    get_image_index := fun s => s.data.foldl (fun n c => n * 10 + (c.toNat - 48)) 0
    latent_image_target := fun a => a }

def jd0 : JsonData :=
  { cam_image_array := "img0.jpg", user_angle := 1/10, user_throttle := 1/2
    imu := none, behavior := none }

def rp0 : RecordPath := ⟨"t", 0⟩

/-- A filesystem where the record file for `rp0` loads fine but no image
file exists at all. -/
def fs4 : FS :=
  { records := fun rp => if rp = rp0 then some jd0 else none
    files := fun _ => false }

def sm0 : Sample :=
  { tub_path := "t", index := 0, record_path := rp0, image_path := "t/img0.jpg"
    json_data := jd0, angle := .scalar (1/10), throttle := .scalar (1/2)
    imu_array := none, behavior_arr := none, img_data := none, train := true }

/-- C4 fails: `collate_records` stores a sample whose image path does not
resolve to an existing file (the source never checks `os.path.exists` on the
image at ingestion; only the continuous-mode generator does, later). -/
theorem C4_counterexample :
    ((collate_records ext0 false fs4 [rp0] [] [1]).1.find?
        (make_key "t" 0)).map Sample.image_path = some "t/img0.jpg" ∧
    fs4.files "t/img0.jpg" = false := by
  exact ⟨rfl, rfl⟩

/-- C4 (amended): at ingestion time `collate_records` checks only that the
record file loads as JSON; it performs no image-existence check, so its
result is independent of which image files exist, and a listed record that
loads as JSON always ends up in the store (samples with unresolvable image
references are stored, to be evicted only later by the continuous-mode
generator). -/
theorem C4_no_image_check (ext : Ext) (categorical : Bool)
    (recs : RecordPath → Option JsonData) (files files' : String → Bool)
    (records : List RecordPath) (st : Store) (rng : List Rat) :
    collate_records ext categorical ⟨recs, files⟩ records st rng
      = collate_records ext categorical ⟨recs, files'⟩ records st rng ∧
    (∀ rp ∈ records, ∀ jd, recs rp = some jd →
      (Store.find? (collate_records ext categorical ⟨recs, files⟩ records st rng).1
        (make_key rp.dir rp.idx)).isSome) := by
  constructor
  · induction records generalizing st rng with
    | nil => rfl
    | cons rp rest ih =>
      by_cases hc : (Store.find? st (make_key rp.dir rp.idx)).isSome
      · simp only [collate_records, hc, if_true]
        exact ih st rng
      · simp only [collate_records, hc, if_false]
        cases hj : recs rp with
        | none => simpa [hj] using ih st rng
        | some jd => simpa [hj] using ih _ _
  · intro rp hmem jd hjd
    rcases collate_exhaustive ext categorical ⟨recs, files⟩ records st rng rp hmem with h | h
    · exact h
    · simp only [hjd] at h
      cases h

/-- Witness for `C4_no_image_check`: the loadable record `rp0` is inserted
even though no image file exists. -/
theorem C4_witness :
    (Store.find? (collate_records ext0 false ⟨fs4.records, fun _ => false⟩
      [rp0] [] [1]).1 (make_key rp0.dir rp0.idx)).isSome := by
  have h := C4_no_image_check ext0 false fs4.records (fun _ => false)
    (fun _ => true) [rp0] [] [1]
  exact h.2 rp0 (List.mem_cons_self _ _) jd0 rfl

/-- Witness for `C6_collate_idempotent` at a concrete store and record set. -/
theorem C6_witness :
    (collate_records ext0 false fs4 [rp0]
        (collate_records ext0 false fs4 [rp0] [("a", sm0)] [1]).1 [])
      = ((collate_records ext0 false fs4 [rp0] [("a", sm0)] [1]).1, []) ∧
    Store.find? (collate_records ext0 false fs4 [rp0] [("a", sm0)] [1]).1 "a" = some sm0 := by
  have h := C6_collate_idempotent ext0 false fs4 [rp0] [("a", sm0)] [1] []
  exact ⟨h.1, h.2 "a" sm0 rfl⟩

/-! ## Checkpoint callback `MyCPCallback` (train.py lines 199-234) -/

/-- The best-loss bookkeeping of the checkpoint callback.  `best = none`
models the `np.Inf` that `keras.callbacks.ModelCheckpoint` (mode `'min'`)
starts from and that the reset restores; `saved` records the epochs at which
the model file was persisted, with their validation losses. -/
structure CPState where
  best : Option Rat
  reset_best_end_of_epoch : Bool
  saved : List (Nat × Rat)

def ltBest (loss : Rat) : Option Rat → Bool
  | none => true
  | some b => decide (loss < b)

/-- Modelled from the spec: the superclass
`keras.callbacks.ModelCheckpoint(save_best_only=True, mode='min',
monitor='val_loss')` is external library code; per spec section 4.6 it
observes each epoch's validation loss and, exactly when it beats the running
best, persists the model and updates the running best. -/
def checkpoint_super_on_epoch_end (epoch : Nat) (loss : Rat) (st : CPState) : CPState :=
  if ltBest loss st.best then
    { st with best := some loss, saved := st.saved ++ [(epoch, loss)] }
  else st

/-- `MyCPCallback.reset_best` (line 211): sets only the flag. -/
def cp_reset_best (st : CPState) : CPState :=
  { st with reset_best_end_of_epoch := true }

/-- `MyCPCallback.on_epoch_end` (lines 214-234): superclass checkpoint logic
first, then, if the flag is set, clear it and reset the running best to
infinity ("when reset best is set, we want to make sure to run an entire
epoch before setting our new best"). -/
def cp_on_epoch_end (epoch : Nat) (loss : Rat) (st : CPState) : CPState :=
  let st1 := checkpoint_super_on_epoch_end epoch loss st
  if st1.reset_best_end_of_epoch then
    { st1 with reset_best_end_of_epoch := false, best := none }
  else st1

def initCP : CPState := { best := none, reset_best_end_of_epoch := false, saved := [] }

/-- Run the epochs in order.  `resetDuring e = true` means `reset_best()` is
invoked during epoch `e` — after epoch `e-1`'s end and before epoch `e`'s end
(this is what "calling `reset_best()` before epoch `e`" can mean for the live
generator, which runs between epoch boundaries). -/
def runEpochs (resetDuring : Nat → Bool) (losses : List (Nat × Rat)) (st : CPState) : CPState :=
  losses.foldl (fun acc el =>
    cp_on_epoch_end el.1 el.2 (if resetDuring el.1 then cp_reset_best acc else acc)) st

/-- C2 fails: with losses [0.5, 0.3, 0.4, 0.2] and `reset_best()` called
before epoch 3, epoch 3's loss 0.4 is NOT treated as a new best (nothing is
persisted at epoch 3 and the running best right after epoch 3 is infinity,
not 0.4), because the reset is applied only at the END of epoch 3, after
epoch 3's comparison against the old best 0.3.  The persisted best after
epoch 4 does correspond to 0.2. -/
theorem C2_counterexample :
    (runEpochs (fun e => e == 3) [(1, 1/2), (2, 3/10), (3, 2/5)] initCP).saved
        = [(1, 1/2), (2, 3/10)] ∧
    (runEpochs (fun e => e == 3) [(1, 1/2), (2, 3/10), (3, 2/5)] initCP).best = none ∧
    (runEpochs (fun e => e == 3) [(1, 1/2), (2, 3/10), (3, 2/5), (4, 1/5)] initCP).saved
        = [(1, 1/2), (2, 3/10), (4, 1/5)] := by
  norm_num [runEpochs, cp_on_epoch_end, checkpoint_super_on_epoch_end, cp_reset_best,
    initCP, ltBest]

/-- C2 (amended): `reset_best()` sets a flag; the running best becomes
infinity at the END of the next epoch boundary, after that epoch's own
comparison, and for exactly one boundary.  For losses [l1, l2, l3, l4] with
l2 < l1 and l3 not better than l2, calling `reset_best()` before epoch 3
leaves epoch 3 judged against the old best (0.4 is not persisted), resets the
best to infinity at the end of epoch 3, and so epoch 4's loss becomes the new
baseline: the persisted best after epoch 4 corresponds to l4. -/
theorem C2_reset_best_deferred (l1 l2 l3 l4 : Rat)
    (h21 : l2 < l1) (h32 : ¬ l3 < l2) :
    (runEpochs (fun e => e == 3) [(1, l1), (2, l2), (3, l3)] initCP).best = none ∧
    (runEpochs (fun e => e == 3) [(1, l1), (2, l2), (3, l3)] initCP).saved
        = [(1, l1), (2, l2)] ∧
    (runEpochs (fun e => e == 3) [(1, l1), (2, l2), (3, l3), (4, l4)] initCP).best = some l4 ∧
    (runEpochs (fun e => e == 3) [(1, l1), (2, l2), (3, l3), (4, l4)] initCP).saved
        = [(1, l1), (2, l2), (4, l4)] := by
  simp [runEpochs, cp_on_epoch_end, checkpoint_super_on_epoch_end, cp_reset_best,
    initCP, ltBest, h21, h32]

/-- Witness for `C2_reset_best_deferred` at the spec's concrete losses. -/
theorem C2_witness :
    (runEpochs (fun e => e == 3) [(1, 1/2), (2, 3/10), (3, 2/5), (4, 1/5)] initCP).best
      = some (1/5) := by
  have h := C2_reset_best_deferred (1/2) (3/10) (2/5) (1/5) (by norm_num) (by norm_num)
  exact h.2.2.1

/-! ## The streaming batch generator (`train.generator`, train.py lines 354-484)

One instantiation of `generator(save_best, opts, data, batch_size,
isTrainSet)` fixes the flags below; `model_out_shape` is
`kl.model.output.shape` (or `(2, 1)` when the output is a list),
`img_out`/`has_imu`/`has_bvh` are the `type(kl) is ...` checks. -/

structure GenArgs where
  isTrainSet : Bool
  continuous : Bool
  aug : Bool
  batch_size : Nat
  cache_images : Bool
  img_out : Bool
  has_imu : Bool
  has_bvh : Bool
  model_out_shape : Nat × Nat

/-- `np.array` of a list of controls (scalars, or bin vectors). -/
def npOfCtl : Ctl → NpArr
  | .scalar v => .scalar v
  | .binned l => .arr (l.map .scalar)

def npOfRatList (l : List Rat) : NpArr := .arr (l.map .scalar)

/-- The per-batch accumulator lists of lines 423-428. -/
structure MatAcc where
  inputs_img : List NpArr
  inputs_imu : List NpArr
  inputs_bvh : List NpArr
  angles : List Ctl
  throttles : List Ctl
  out_img : List NpArr

def initMatAcc : MatAcc := ⟨[], [], [], [], [], []⟩

/-- Lines 448-460: per record, append the latent target / imu / behavior
vectors as the topology flags dictate, then the image, angle and throttle.
(A `record['imu_array']` lookup on a sample without imu data would raise
`KeyError` in Python; the lookup is modelled with an empty default.) -/
def pushRecord (ext : Ext) (args : GenArgs) (acc : MatAcc) (r : Sample) (img_arr : NpArr) :
    MatAcc :=
  { inputs_img := acc.inputs_img ++ [img_arr]
    inputs_imu := if args.has_imu then acc.inputs_imu ++ [npOfRatList (r.imu_array.getD [])]
                  else acc.inputs_imu
    inputs_bvh := if args.has_bvh then acc.inputs_bvh ++ [npOfRatList (r.behavior_arr.getD [])]
                  else acc.inputs_bvh
    angles := acc.angles ++ [r.angle]
    throttles := acc.throttles ++ [r.throttle]
    out_img := if args.img_out then acc.out_img ++ [ext.latent_image_target img_arr]
               else acc.out_img }

/-- The `for record in batch_data` loop of lines 430-460: load the image
unless cached, augment, optionally cache it back into the store (Python
mutates the shared dict entry, reached here through the carried key), and
accumulate.  A failed load is the `break` of line 438: the batch is abandoned
(`none`), keeping the cache writes already made. -/
def matGo (ext : Ext) (args : GenArgs) :
    List (String × Sample) → Store → MatAcc → Option MatAcc × Store
  | [], st, acc => (some acc, st)
  | (k, r) :: rest, st, acc =>
    match r.img_data with
    | none =>
      match ext.load_scaled_image_arr r.image_path with
      | none => (none, st)
      | some a0 =>
        let a := if args.aug then ext.augment_image a0 else a0
        let st' := if args.cache_images then Store.setImg st k a else st
        matGo ext args rest st' (pushRecord ext args acc r a)
    | some a => matGo ext args rest st (pushRecord ext args acc r a)

/-- One yielded `(X, y)` pair (lines 465-482).  The numpy reshape of the
stacked image tensor to `[batch, H, W, depth]` is data-preserving and not
modelled beyond the stacked list; the claims inspect `y`. -/
structure Batch where
  X : List NpArr
  y : List NpArr

def mkBatch (args : GenArgs) (acc : MatAcc) : Batch :=
  let img_arr := NpArr.arr acc.inputs_img
  { X := if args.has_imu then [img_arr, NpArr.arr acc.inputs_imu]
         else if args.has_bvh then [img_arr, NpArr.arr acc.inputs_bvh]
         else [img_arr]
    y := if args.img_out then
           [NpArr.arr acc.out_img, NpArr.arr (acc.angles.map npOfCtl),
            NpArr.arr (acc.throttles.map npOfCtl)]
         else if args.model_out_shape.2 = 2 then
           [NpArr.arr [NpArr.arr (acc.angles.map npOfCtl),
                       NpArr.arr (acc.throttles.map npOfCtl)]]
         else
           [NpArr.arr (acc.angles.map npOfCtl), NpArr.arr (acc.throttles.map npOfCtl)] }

/-- The evolving state of one traversal of the shuffled key snapshot. -/
structure TravState where
  store : Store
  batch_data : List (String × Sample)
  batches : List Batch

/-- The body of `for key in keys` (lines 403-484): skip keys no longer
present; skip partition mismatches; in continuous mode evict samples whose
backing image file disappeared; otherwise accumulate, and materialize when
`len(batch_data) == batch_size`.  After a yield `batch_data = []`; after a
failed materialization (`continue` at line 463) `batch_data` is kept as is. -/
def travStep (ext : Ext) (args : GenArgs) (files : String → Bool)
    (s : TravState) (key : String) : TravState :=
  match Store.find? s.store key with
  | none => s
  | some r =>
    if r.train != args.isTrainSet then s
    else if args.continuous && !(files r.image_path) then
      { s with store := Store.erase s.store key }
    else
      let bd := s.batch_data ++ [(key, r)]
      if bd.length = args.batch_size then
        match matGo ext args bd s.store initMatAcc with
        | (some acc, st') =>
          { store := st', batch_data := [], batches := s.batches ++ [mkBatch args acc] }
        | (none, st') => { store := st', batch_data := bd, batches := s.batches }
      else { s with batch_data := bd }

/-- One full traversal (one `while True` iteration, non-waiting path):
`batch_data = []` at line 378, then the walk over the shuffled keys of
line 403; `keys` is the shuffled snapshot of line 380-382 (the shuffle
itself is external randomness, so the traversal takes the shuffled order as
input). -/
def traverse (ext : Ext) (args : GenArgs) (files : String → Bool)
    (keys : List String) (st : Store) : TravState :=
  keys.foldl (travStep ext args files) ⟨st, [], []⟩

/-- The partition label visible in the store under a key. -/
def trainView (st : Store) (k : String) : Option Bool :=
  (Store.find? st k).map Sample.train

theorem find?_setImg (st : Store) (k : String) (a : NpArr) (k' : String) :
    Store.find? (Store.setImg st k a) k'
      = (Store.find? st k').map
          (fun s => if k' = k then { s with img_data := some a } else s) := by
  induction st with
  | nil => rfl
  | cons e rest ih =>
    obtain ⟨k0, s0⟩ := e
    by_cases h0 : k0 = k
    · rw [show Store.setImg ((k0, s0) :: rest) k a
          = (k0, { s0 with img_data := some a }) :: Store.setImg rest k a by
        simp [Store.setImg, h0]]
      by_cases h1 : k0 = k'
      · have hk : k' = k := by rw [← h1, h0]
        simp [Store.find?, h1, hk]
      · simp [Store.find?, h1, ih]
    · rw [show Store.setImg ((k0, s0) :: rest) k a
          = (k0, s0) :: Store.setImg rest k a by simp [Store.setImg, h0]]
      by_cases h1 : k0 = k'
      · have hk : ¬ k' = k := by rw [← h1]; exact fun hh => h0 hh
        simp [Store.find?, h1, hk]
      · simp [Store.find?, h1, ih]

theorem trainView_setImg (st : Store) (k : String) (a : NpArr) (k' : String) :
    trainView (Store.setImg st k a) k' = trainView st k' := by
  unfold trainView
  rw [find?_setImg, Option.map_map]
  congr 1
  funext s
  by_cases h : k' = k <;> simp [h]

theorem keys_setImg (st : Store) (k : String) (a : NpArr) :
    (Store.setImg st k a).keys = st.keys := by
  induction st with
  | nil => rfl
  | cons e rest ih =>
    obtain ⟨k0, s0⟩ := e
    by_cases h0 : k0 = k <;> simp [Store.setImg, Store.keys, h0] <;>
      simpa [Store.keys] using ih

theorem matGo_store (ext : Ext) (args : GenArgs) :
    ∀ (bd : List (String × Sample)) (st : Store) (acc : MatAcc),
      (∀ k', trainView (matGo ext args bd st acc).2 k' = trainView st k') ∧
      ((matGo ext args bd st acc).2).keys = st.keys := by
  intro bd
  induction bd with
  | nil => intro st acc; exact ⟨fun _ => rfl, rfl⟩
  | cons e rest ih =>
    intro st acc
    obtain ⟨k, r⟩ := e
    cases himg : r.img_data with
    | none =>
      cases hload : ext.load_scaled_image_arr r.image_path with
      | none => simp [matGo, himg, hload]
      | some a0 =>
        simp only [matGo, himg, hload]
        by_cases hcache : args.cache_images
        · simp only [hcache, if_true]
          refine ⟨fun k' => ?_, ?_⟩
          · rw [(ih _ _).1 k', trainView_setImg]
          · rw [(ih _ _).2, keys_setImg]
        · simp only [hcache, if_false]
          exact ih _ _
    | some a => simp only [matGo, himg]; exact ih _ _

theorem matGo_some (ext : Ext) (args : GenArgs)
    (hload : ∀ p, (ext.load_scaled_image_arr p).isSome) :
    ∀ (bd : List (String × Sample)) (st : Store) (acc : MatAcc),
      (matGo ext args bd st acc).1.isSome := by
  intro bd
  induction bd with
  | nil => intro st acc; rfl
  | cons e rest ih =>
    intro st acc
    obtain ⟨k, r⟩ := e
    cases himg : r.img_data with
    | none =>
      cases hl : ext.load_scaled_image_arr r.image_path with
      | none => have := hload r.image_path; rw [hl] at this; cases this
      | some a0 => simp only [matGo, himg, hl]; exact ih _ _
    | some a => simp only [matGo, himg]; exact ih _ _

theorem matGo_controls (ext : Ext) (args : GenArgs) :
    ∀ (bd : List (String × Sample)) (st : Store) (acc acc' : MatAcc) (st' : Store),
      matGo ext args bd st acc = (some acc', st') →
      acc'.angles = acc.angles ++ bd.map (fun e => e.2.angle) ∧
      acc'.throttles = acc.throttles ++ bd.map (fun e => e.2.throttle) := by
  intro bd
  induction bd with
  | nil =>
    intro st acc acc' st' h
    simp only [matGo] at h
    cases h
    simp
  | cons e rest ih =>
    intro st acc acc' st' h
    obtain ⟨k, r⟩ := e
    cases himg : r.img_data with
    | none =>
      cases hl : ext.load_scaled_image_arr r.image_path with
      | none => simp [matGo, himg, hl] at h
      | some a0 =>
        simp only [matGo, himg, hl] at h
        have h2 := ih _ _ _ _ h
        simpa [pushRecord] using And.intro h2.1 h2.2
    | some a =>
      simp only [matGo, himg] at h
      have h2 := ih _ _ _ _ h
      simpa [pushRecord] using And.intro h2.1 h2.2

theorem keys_cons (k0 : String) (s0 : Sample) (rest : Store) :
    Store.keys ((k0, s0) :: rest) = k0 :: Store.keys rest := rfl

theorem find?_eq_none_of_not_mem (st : Store) (k : String) (h : k ∉ Store.keys st) :
    Store.find? st k = none := by
  induction st with
  | nil => rfl
  | cons e rest ih =>
    obtain ⟨k0, s0⟩ := e
    rw [keys_cons] at h
    have hne : ¬ k0 = k := fun hh => h (by rw [← hh]; exact List.mem_cons_self _ _)
    have hrest : k ∉ Store.keys rest := fun hh => h (List.mem_cons_of_mem _ hh)
    simp [Store.find?, hne, ih hrest]

theorem find?_append_none (l1 l2 : Store) (k : String) (h : Store.find? l1 k = none) :
    Store.find? (l1 ++ l2) k = Store.find? l2 k := by
  rw [find?_append, h]

theorem find?_erase (st : Store) (k : String) (hnd : (Store.keys st).Nodup) (k' : String) :
    Store.find? (Store.erase st k) k' = if k' = k then none else Store.find? st k' := by
  induction st with
  | nil => simp [Store.erase, Store.find?]
  | cons e rest ih =>
    obtain ⟨k0, s0⟩ := e
    rw [keys_cons] at hnd
    have hnotin : k0 ∉ Store.keys rest := (List.nodup_cons.mp hnd).1
    have hnd' : (Store.keys rest).Nodup := (List.nodup_cons.mp hnd).2
    by_cases h0 : k0 = k
    · rw [show Store.erase ((k0, s0) :: rest) k = rest by simp [Store.erase, h0]]
      by_cases h1 : k' = k
      · rw [if_pos h1, h1, ← h0]
        exact find?_eq_none_of_not_mem rest k0 hnotin
      · have h2 : ¬ k0 = k' := fun hh => h1 (by rw [← hh, h0])
        simp [Store.find?, h1, h2]
    · rw [show Store.erase ((k0, s0) :: rest) k = (k0, s0) :: Store.erase rest k by
        simp [Store.erase, h0]]
      by_cases h2 : k0 = k'
      · have h1 : ¬ k' = k := fun hh => h0 (by rw [h2, hh])
        simp [Store.find?, h2, h1]
      · simp [Store.find?, h2, ih hnd']

theorem keys_erase_sublist (st : Store) (k : String) :
    (Store.erase st k).keys.Sublist st.keys := by
  induction st with
  | nil => simp [Store.erase, Store.keys]
  | cons e rest ih =>
    obtain ⟨k0, s0⟩ := e
    by_cases h0 : k0 = k
    · rw [show Store.erase ((k0, s0) :: rest) k = rest by simp [Store.erase, h0]]
      exact List.sublist_cons_of_sublist _ (List.Sublist.refl _)
    · rw [show Store.erase ((k0, s0) :: rest) k = (k0, s0) :: Store.erase rest k by
        simp [Store.erase, h0]]
      exact List.Sublist.cons₂ _ ih

/-- `st'` refines `st` on the partition labels: every surviving entry kept
its `train` field. -/
def TrainSub (st' st : Store) : Prop :=
  ∀ k s', Store.find? st' k = some s' → ∃ s, Store.find? st k = some s ∧ s'.train = s.train

theorem trainSub_refl (st : Store) : TrainSub st st :=
  fun _ s' h => ⟨s', h, rfl⟩

theorem trainSub_trans {st1 st2 st3 : Store} (h12 : TrainSub st1 st2) (h23 : TrainSub st2 st3) :
    TrainSub st1 st3 := by
  intro k s' h
  obtain ⟨s2, h2, e2⟩ := h12 k s' h
  obtain ⟨s3, h3, e3⟩ := h23 k s2 h2
  exact ⟨s3, h3, e2.trans e3⟩

theorem trainSub_of_view {st' st : Store} (h : ∀ k, trainView st' k = trainView st k) :
    TrainSub st' st := by
  intro k s' hs'
  have hv : trainView st k = some s'.train := by
    rw [← h k]; unfold trainView; rw [hs']; rfl
  unfold trainView at hv
  cases hfind : Store.find? st k with
  | none => rw [hfind] at hv; cases hv
  | some s =>
    rw [hfind] at hv
    exact ⟨s, rfl, (Option.some.injEq _ _ ▸ hv : s.train = s'.train).symm⟩

theorem travStep_none {s : TravState} {key : String}
    (ext : Ext) (args : GenArgs) (files : String → Bool)
    (h : Store.find? s.store key = none) :
    travStep ext args files s key = s := by
  unfold travStep; rw [h]

theorem travStep_skip {s : TravState} {key : String} {r : Sample}
    (ext : Ext) (args : GenArgs) (files : String → Bool)
    (h : Store.find? s.store key = some r)
    (hrt : (r.train != args.isTrainSet) = true) :
    travStep ext args files s key = s := by
  unfold travStep; rw [h]
  simp only [hrt, if_true]

theorem travStep_evict {s : TravState} {key : String} {r : Sample}
    (ext : Ext) (args : GenArgs) (files : String → Bool)
    (h : Store.find? s.store key = some r)
    (hrt : (r.train != args.isTrainSet) = false)
    (hev : (args.continuous && !(files r.image_path)) = true) :
    travStep ext args files s key = { s with store := Store.erase s.store key } := by
  unfold travStep; rw [h]
  simp only [hrt, hev, Bool.false_eq_true, if_false, if_true]

theorem travStep_acc {s : TravState} {key : String} {r : Sample}
    (ext : Ext) (args : GenArgs) (files : String → Bool)
    (h : Store.find? s.store key = some r)
    (hrt : (r.train != args.isTrainSet) = false)
    (hev : (args.continuous && !(files r.image_path)) = false)
    (hfull : ¬ (s.batch_data ++ [(key, r)]).length = args.batch_size) :
    travStep ext args files s key = { s with batch_data := s.batch_data ++ [(key, r)] } := by
  unfold travStep; rw [h]
  simp only [hrt, hev, Bool.false_eq_true, if_false, hfull]

theorem travStep_emit {s : TravState} {key : String} {r : Sample} {acc : MatAcc} {st2 : Store}
    (ext : Ext) (args : GenArgs) (files : String → Bool)
    (h : Store.find? s.store key = some r)
    (hrt : (r.train != args.isTrainSet) = false)
    (hev : (args.continuous && !(files r.image_path)) = false)
    (hfull : (s.batch_data ++ [(key, r)]).length = args.batch_size)
    (hmg : matGo ext args (s.batch_data ++ [(key, r)]) s.store initMatAcc = (some acc, st2)) :
    travStep ext args files s key
      = { store := st2, batch_data := [], batches := s.batches ++ [mkBatch args acc] } := by
  unfold travStep; rw [h]
  simp only [hrt, hev, Bool.false_eq_true, if_false, hfull, if_true, hmg]

theorem travStep_fail {s : TravState} {key : String} {r : Sample} {st2 : Store}
    (ext : Ext) (args : GenArgs) (files : String → Bool)
    (h : Store.find? s.store key = some r)
    (hrt : (r.train != args.isTrainSet) = false)
    (hev : (args.continuous && !(files r.image_path)) = false)
    (hfull : (s.batch_data ++ [(key, r)]).length = args.batch_size)
    (hmg : matGo ext args (s.batch_data ++ [(key, r)]) s.store initMatAcc = (none, st2)) :
    travStep ext args files s key
      = { store := st2, batch_data := s.batch_data ++ [(key, r)], batches := s.batches } := by
  unfold travStep; rw [h]
  simp only [hrt, hev, Bool.false_eq_true, if_false, hfull, if_true, hmg]

theorem travStep_inv (ext : Ext) (args : GenArgs) (files : String → Bool)
    (s : TravState) (key : String) (hnd : (Store.keys s.store).Nodup) :
    (Store.keys (travStep ext args files s key).store).Nodup ∧
    TrainSub (travStep ext args files s key).store s.store := by
  cases hfind : Store.find? s.store key with
  | none => rw [travStep_none ext args files hfind]; exact ⟨hnd, trainSub_refl _⟩
  | some r =>
    cases hrt : (r.train != args.isTrainSet) with
    | true => rw [travStep_skip ext args files hfind hrt]; exact ⟨hnd, trainSub_refl _⟩
    | false =>
      cases hev : (args.continuous && !(files r.image_path)) with
      | true =>
        rw [travStep_evict ext args files hfind hrt hev]
        refine ⟨List.Sublist.nodup (keys_erase_sublist s.store key) hnd, ?_⟩
        intro k s' h
        rw [show ({ s with store := Store.erase s.store key } : TravState).store
            = Store.erase s.store key from rfl, find?_erase s.store key hnd k] at h
        by_cases hk : k = key
        · rw [if_pos hk] at h; cases h
        · rw [if_neg hk] at h; exact ⟨s', h, rfl⟩
      | false =>
        by_cases hfull : (s.batch_data ++ [(key, r)]).length = args.batch_size
        · rcases hmg : matGo ext args (s.batch_data ++ [(key, r)]) s.store initMatAcc
            with ⟨o, st2⟩
          have hview := (matGo_store ext args (s.batch_data ++ [(key, r)]) s.store initMatAcc).1
          have hkeys := (matGo_store ext args (s.batch_data ++ [(key, r)]) s.store initMatAcc).2
          rw [hmg] at hview hkeys
          cases o with
          | some acc =>
            rw [travStep_emit ext args files hfind hrt hev hfull hmg]
            exact ⟨by rw [show Store.keys st2 = Store.keys s.store from hkeys]; exact hnd,
              trainSub_of_view hview⟩
          | none =>
            rw [travStep_fail ext args files hfind hrt hev hfull hmg]
            exact ⟨by rw [show Store.keys st2 = Store.keys s.store from hkeys]; exact hnd,
              trainSub_of_view hview⟩
        · rw [travStep_acc ext args files hfind hrt hev hfull]
          exact ⟨hnd, trainSub_refl _⟩

theorem travFold_inv (ext : Ext) (args : GenArgs) (files : String → Bool) :
    ∀ (keys : List String) (s : TravState), (Store.keys s.store).Nodup →
      (Store.keys (keys.foldl (travStep ext args files) s).store).Nodup ∧
      TrainSub (keys.foldl (travStep ext args files) s).store s.store := by
  intro keys
  induction keys with
  | nil => intro s hnd; exact ⟨hnd, trainSub_refl _⟩
  | cons k keys ih =>
    intro s hnd
    have h1 := travStep_inv ext args files s k hnd
    have h2 := ih (travStep ext args files s k) h1.1
    exact ⟨h2.1, trainSub_trans h2.2 h1.2⟩

/-- C7: the partition is decided once, at ingestion, by the uniform draw
compared against 0.2 (train iff the draw exceeds 0.2), and is never
reassigned: later ingestion runs leave existing entries untouched, and any
number of generator traversals leaves every surviving sample's `train`
field unchanged. -/
theorem C7_partition_assigned_once (ext : Ext) (categorical : Bool) (fs : FS)
    (rp : RecordPath) (jd : JsonData) (st : Store) (rng rng2 : List Rat) (u : Rat)
    (records : List RecordPath) (args : GenArgs) (files : String → Bool)
    (keys : List String)
    (hfresh : Store.find? st (make_key rp.dir rp.idx) = none)
    (hjd : fs.records rp = some jd) (hnd : (Store.keys st).Nodup) :
    ((collate_records ext categorical fs [rp] st (u :: rng)).1.find?
        (make_key rp.dir rp.idx)).map Sample.train = some (decide (u > 1/5)) ∧
    (∀ k s, Store.find? st k = some s →
      Store.find? (collate_records ext categorical fs records st rng2).1 k = some s) ∧
    (∀ k s', Store.find? (traverse ext args files keys st).store k = some s' →
      ∃ s, Store.find? st k = some s ∧ s'.train = s.train) := by
  refine ⟨?_, ?_, ?_⟩
  · have hns : ¬ ((Store.find? st (make_key rp.dir rp.idx)).isSome = true) := by
      rw [hfresh]; exact fun h => by cases h
    rw [collate_records, if_neg hns]
    simp only [hjd]
    rw [collate_records]
    simp only [find?_append_none st _ _ hfresh]
    simp [Store.find?]
  · intro k s h
    exact collate_preserves ext categorical fs records st rng2 k s h
  · intro k s' h
    exact (travFold_inv ext args files keys ⟨st, [], []⟩ hnd).2 k s' h

def argsW : GenArgs :=
  { isTrainSet := true, continuous := false, aug := false, batch_size := 2
    cache_images := false, img_out := false, has_imu := false, has_bvh := false
    model_out_shape := (2, 1) }

/-- Witness for `C7_partition_assigned_once`: a fresh record drawn 0.3 is
stored as a training sample (0.3 > 0.2). -/
theorem C7_witness :
    ((collate_records ext0 false fs4 [rp0] [] [(3/10 : Rat)]).1.find?
        (make_key "t" 0)).map Sample.train = some (decide ((3/10 : Rat) > 1/5)) := by
  have h := C7_partition_assigned_once ext0 false fs4 rp0 jd0 [] [] [] (3/10) []
    argsW (fun _ => true) [] rfl rfl List.nodup_nil
  exact h.1

theorem travCount (ext : Ext) (args : GenArgs) (files : String → Bool) (st0 : Store)
    (hB : 0 < args.batch_size) (hcont : args.continuous = false)
    (hload : ∀ p, (ext.load_scaled_image_arr p).isSome) :
    ∀ (keys : List String) (s : TravState),
      (∀ k, trainView s.store k = trainView st0 k) →
      s.batch_data.length < args.batch_size →
      (keys.foldl (travStep ext args files) s).batches.length
          = s.batches.length
            + (s.batch_data.length
               + keys.countP (fun k => decide (trainView st0 k = some args.isTrainSet)))
              / args.batch_size ∧
      (keys.foldl (travStep ext args files) s).batch_data.length
          = (s.batch_data.length
             + keys.countP (fun k => decide (trainView st0 k = some args.isTrainSet)))
            % args.batch_size := by
  intro keys
  induction keys with
  | nil =>
    intro s hview hlen
    constructor
    · simp [Nat.div_eq_of_lt hlen]
    · simp [Nat.mod_eq_of_lt hlen]
  | cons key keys ih =>
    intro s hview hlen
    cases hfind : Store.find? s.store key with
    | none =>
      have hv0 : trainView st0 key = none := by
        rw [← hview key]; unfold trainView; rw [hfind]; rfl
      have hpred : (decide (trainView st0 key = some args.isTrainSet)) = false := by
        simp [hv0]
      rw [List.foldl_cons, travStep_none ext args files hfind, List.countP_cons, hpred]
      simpa using ih s hview hlen
    | some r =>
      have hv0 : trainView st0 key = some r.train := by
        rw [← hview key]; unfold trainView; rw [hfind]; rfl
      cases hrt : (r.train != args.isTrainSet) with
      | true =>
        have hne : ¬ r.train = args.isTrainSet := by simpa using hrt
        have hpred : (decide (trainView st0 key = some args.isTrainSet)) = false := by
          simp [hv0, hne]
        rw [List.foldl_cons, travStep_skip ext args files hfind hrt, List.countP_cons, hpred]
        simpa using ih s hview hlen
      | false =>
        have heq : r.train = args.isTrainSet := by simpa using hrt
        have hpred : (decide (trainView st0 key = some args.isTrainSet)) = true := by
          simp [hv0, heq]
        have hev : (args.continuous && !(files r.image_path)) = false := by
          rw [hcont]; rfl
        have hcnt : List.countP (fun k => decide (trainView st0 k = some args.isTrainSet))
              (key :: keys)
            = List.countP (fun k => decide (trainView st0 k = some args.isTrainSet)) keys + 1 := by
          rw [List.countP_cons, hpred]; simp
        rw [List.foldl_cons, hcnt]
        by_cases hfull : (s.batch_data ++ [(key, r)]).length = args.batch_size
        · rcases hmg : matGo ext args (s.batch_data ++ [(key, r)]) s.store initMatAcc
            with ⟨o, st2⟩
          have hsome := matGo_some ext args hload (s.batch_data ++ [(key, r)]) s.store initMatAcc
          rw [hmg] at hsome
          cases o with
          | none => cases hsome
          | some acc =>
            have hview2 : ∀ k, trainView st2 k = trainView st0 k := by
              intro k
              have hst := (matGo_store ext args (s.batch_data ++ [(key, r)]) s.store initMatAcc).1
              rw [hmg] at hst
              rw [hst k, hview k]
            rw [travStep_emit ext args files hfind hrt hev hfull hmg]
            obtain ⟨ha, hb⟩ := ih ⟨st2, [], s.batches ++ [mkBatch args acc]⟩ hview2
              (by simpa using hB)
            simp only [List.length_append, List.length_cons, List.length_nil,
              Nat.zero_add] at ha hb hfull
            have e2 : s.batch_data.length
                + (keys.countP (fun k => decide (trainView st0 k = some args.isTrainSet)) + 1)
                = keys.countP (fun k => decide (trainView st0 k = some args.isTrainSet))
                  + args.batch_size := by omega
            constructor
            · rw [ha, e2, Nat.add_div_right _ hB]
              generalize keys.countP (fun k => decide (trainView st0 k = some args.isTrainSet))
                  / args.batch_size = q
              omega
            · rw [hb, e2, Nat.add_mod_right]
        · rw [travStep_acc ext args files hfind hrt hev hfull]
          obtain ⟨ha, hb⟩ := ih { s with batch_data := s.batch_data ++ [(key, r)] } hview
            (by
              simp only [List.length_append, List.length_cons, List.length_nil,
                Nat.zero_add] at hfull ⊢
              omega)
          simp only [List.length_append, List.length_cons, List.length_nil,
            Nat.zero_add] at ha hb
          have e3 : s.batch_data.length + 1
              + keys.countP (fun k => decide (trainView st0 k = some args.isTrainSet))
              = s.batch_data.length
                + (keys.countP (fun k => decide (trainView st0 k = some args.isTrainSet)) + 1) := by
            omega
          constructor
          · rw [ha, e3]
          · rw [hb, e3]

theorem store_keys_countP (st : Store) (p : Bool) (hnd : (Store.keys st).Nodup) :
    (Store.keys st).countP (fun k => decide (trainView st k = some p))
      = st.countP (fun e => e.2.train == p) := by
  induction st with
  | nil => rfl
  | cons e rest ih =>
    obtain ⟨k0, s0⟩ := e
    rw [keys_cons] at hnd
    have hnotin := (List.nodup_cons.mp hnd).1
    have hnd' := (List.nodup_cons.mp hnd).2
    have hv : trainView ((k0, s0) :: rest) k0 = some s0.train := by
      unfold trainView
      rw [show Store.find? ((k0, s0) :: rest) k0 = some s0 from by
        show (if k0 = k0 then some s0 else Store.find? rest k0) = some s0
        rw [if_pos rfl]]
      rfl
    have hcong : ∀ k ∈ Store.keys rest,
        (decide (trainView ((k0, s0) :: rest) k = some p) = true
          ↔ decide (trainView rest k = some p) = true) := by
      intro k hk
      have hne : ¬ k0 = k := fun hh => hnotin (hh ▸ hk)
      have hfk : Store.find? ((k0, s0) :: rest) k = Store.find? rest k := by
        show (if k0 = k then some s0 else Store.find? rest k) = Store.find? rest k
        rw [if_neg hne]
      unfold trainView
      rw [hfk]
    rw [keys_cons, List.countP_cons, List.countP_cons,
      List.countP_congr hcong, ih hnd']
    have hhead : (decide (trainView ((k0, s0) :: rest) k0 = some p)) = (s0.train == p) := by
      rw [hv]
      cases s0.train <;> cases p <;> decide
    rw [hhead]

/-- C8: with all images decoding and outside continuous mode, one full
traversal of the shuffled key snapshot yields exactly
`⌊count(partition) / batch_size⌋` batches; the `count % batch_size` leftover
samples sit in the discarded `batch_data` accumulator (reset to `[]` when the
next traversal begins), so they are not carried over. -/
theorem C8_batches_per_traversal (ext : Ext) (args : GenArgs) (files : String → Bool)
    (st : Store) (keys : List String)
    (hB : 0 < args.batch_size) (hcont : args.continuous = false)
    (hload : ∀ p, (ext.load_scaled_image_arr p).isSome)
    (hperm : keys.Perm (Store.keys st)) (hnd : (Store.keys st).Nodup) :
    (traverse ext args files keys st).batches.length
        = (st.countP (fun e => e.2.train == args.isTrainSet)) / args.batch_size ∧
    (traverse ext args files keys st).batch_data.length
        = (st.countP (fun e => e.2.train == args.isTrainSet)) % args.batch_size := by
  obtain ⟨ha, hb⟩ := travCount ext args files st hB hcont hload keys ⟨st, [], []⟩
    (fun _ => rfl) hB
  have hc : keys.countP (fun k => decide (trainView st k = some args.isTrainSet))
      = st.countP (fun e => e.2.train == args.isTrainSet) := by
    rw [hperm.countP_eq]
    exact store_keys_countP st args.isTrainSet hnd
  constructor
  · rw [show traverse ext args files keys st
        = keys.foldl (travStep ext args files) ⟨st, [], []⟩ from rfl, ha, hc]
    simp
  · rw [show traverse ext args files keys st
        = keys.foldl (travStep ext args files) ⟨st, [], []⟩ from rfl, hb, hc]
    simp

def args8 : GenArgs :=
  { isTrainSet := true, continuous := false, aug := false, batch_size := 1
    cache_images := false, img_out := false, has_imu := false, has_bvh := false
    model_out_shape := (2, 1) }

def st8 : Store := [("a", sm0)]

/-- Witness for `C8_batches_per_traversal` on a one-sample store. -/
theorem C8_witness :
    (traverse ext0 args8 (fun _ => true) ["a"] st8).batches.length
        = (st8.countP (fun e => e.2.train == args8.isTrainSet)) / args8.batch_size ∧
    (traverse ext0 args8 (fun _ => true) ["a"] st8).batch_data.length
        = (st8.countP (fun e => e.2.train == args8.isTrainSet)) % args8.batch_size :=
  C8_batches_per_traversal ext0 args8 (fun _ => true) st8 ["a"]
    (by decide) rfl (fun _ => rfl) (List.Perm.refl _) (by decide)

/-- A batch of controls that are all plain scalars stacks into a rank-1
array whose shape is the batch length. -/
theorem shape_scalar_stack (l : List Ctl) (h : ∀ c ∈ l, ∃ v, c = Ctl.scalar v) :
    (NpArr.arr (l.map npOfCtl)).shape = [l.length] := by
  cases l with
  | nil => rfl
  | cons c cs =>
    obtain ⟨v, hv⟩ := h c (List.mem_cons_self _ _)
    simp [NpArr.shape, hv, npOfCtl]

/-- C3 (amended): for a materialized batch of a non-image-output topology
with plain scalar controls, when `model_out_shape[1] == 2` the target is ONE
combined tensor `np.array([angles, throttles])` of shape `[2, batch]`
(angles row first) — not `[batch, 2]` as claimed; otherwise the target is two
separate tensors of shape `[batch]` (steering, throttle). -/
theorem C3_target_shapes (ext : Ext) (args : GenArgs) (bd : List (String × Sample))
    (st : Store)
    (hB : bd.length = args.batch_size)
    (hsome : ((matGo ext args bd st initMatAcc).1).isSome)
    (hscalar : ∀ e ∈ bd, (∃ v, e.2.angle = Ctl.scalar v) ∧ (∃ v, e.2.throttle = Ctl.scalar v))
    (himg : args.img_out = false) :
    (args.model_out_shape.2 = 2 →
      ((matGo ext args bd st initMatAcc).1).map
          (fun acc => (mkBatch args acc).y.map NpArr.shape)
        = some [[2, args.batch_size]]) ∧
    (¬ args.model_out_shape.2 = 2 →
      ((matGo ext args bd st initMatAcc).1).map
          (fun acc => (mkBatch args acc).y.map NpArr.shape)
        = some [[args.batch_size], [args.batch_size]]) := by
  obtain ⟨acc, hacc⟩ := Option.isSome_iff_exists.mp hsome
  have heq : matGo ext args bd st initMatAcc
      = (some acc, (matGo ext args bd st initMatAcc).2) := by
    rw [← hacc]
  have hctl := matGo_controls ext args bd st initMatAcc acc _ heq
  have hang : acc.angles = bd.map (fun e => e.2.angle) := by
    simpa [initMatAcc] using hctl.1
  have hthr : acc.throttles = bd.map (fun e => e.2.throttle) := by
    simpa [initMatAcc] using hctl.2
  have hangS : ∀ c ∈ acc.angles, ∃ v, c = Ctl.scalar v := by
    rw [hang]; intro c hc
    obtain ⟨e, he, hce⟩ := List.mem_map.mp hc
    exact hce ▸ (hscalar e he).1
  have hthrS : ∀ c ∈ acc.throttles, ∃ v, c = Ctl.scalar v := by
    rw [hthr]; intro c hc
    obtain ⟨e, he, hce⟩ := List.mem_map.mp hc
    exact hce ▸ (hscalar e he).2
  have hA := shape_scalar_stack acc.angles hangS
  have hT := shape_scalar_stack acc.throttles hthrS
  have hlenA : acc.angles.length = args.batch_size := by
    rw [hang, List.length_map, hB]
  have hlenT : acc.throttles.length = args.batch_size := by
    rw [hthr, List.length_map, hB]
  constructor
  · intro hpair
    rw [hacc]
    have hy : (mkBatch args acc).y
        = [NpArr.arr [NpArr.arr (acc.angles.map npOfCtl),
                      NpArr.arr (acc.throttles.map npOfCtl)]] := by
      simp [mkBatch, himg, hpair]
    simp [hy, NpArr.shape, hA, hlenA]
  · intro hpair
    rw [hacc]
    have hy : (mkBatch args acc).y
        = [NpArr.arr (acc.angles.map npOfCtl), NpArr.arr (acc.throttles.map npOfCtl)] := by
      simp [mkBatch, himg, hpair]
    simp [hy, hA, hT, hlenA, hlenT]

def args3 : GenArgs :=
  { isTrainSet := true, continuous := false, aug := false, batch_size := 3
    cache_images := false, img_out := false, has_imu := false, has_bvh := false
    model_out_shape := (1, 2) }

def st3 : Store := [("k1", sm0), ("k2", sm0), ("k3", sm0)]

/-- C3 fails as stated: with a paired output (`model_out_shape[1] == 2`) and
batch size 3, the generator's single target tensor has shape `[2, 3]`
(`np.array([angles, throttles])` stacks the two control lists as rows), not
the claimed `[batch, 2] = [3, 2]`. -/
theorem C3_counterexample :
    ((traverse ext0 args3 (fun _ => true) ["k1", "k2", "k3"] st3).batches.map
        (fun b => b.y.map NpArr.shape)) = [[[2, 3]]] ∧ ([2, 3] : List Nat) ≠ [3, 2] := by
  exact ⟨rfl, by decide⟩

/-- Witness for `C3_target_shapes` at the concrete three-sample batch. -/
theorem C3_witness :
    ((matGo ext0 args3 [("k1", sm0), ("k2", sm0), ("k3", sm0)] st3 initMatAcc).1).map
        (fun acc => (mkBatch args3 acc).y.map NpArr.shape) = some [[2, 3]] := by
  have h := C3_target_shapes ext0 args3 [("k1", sm0), ("k2", sm0), ("k3", sm0)] st3 rfl rfl
    (by
      intro e he
      fin_cases he <;> exact ⟨⟨1/10, rfl⟩, ⟨1/2, rfl⟩⟩) rfl
  exact h.1 rfl

/-! ## `sequence_train` (train.py lines 670-857) and `multi_train` (869-877) -/

/-- One sample of the sequence path's collation (lines 699-723): controls
stay floats, `target_output = np.array([angle, throttle])`, and the index
comes from `get_image_index(image_filename)`. -/
structure SeqSample where
  record_path : RecordPath
  image_path : String
  tub_path : String
  index : Nat
  angle : Rat
  throttle : Rat
  target_output : List Rat
  img_data : Option NpArr

abbrev SeqStore := List (String × SeqSample)

def SeqStore.find? (st : SeqStore) (k : String) : Option SeqSample :=
  match st with
  | [] => none
  | (k', s) :: rest => if k' = k then some s else SeqStore.find? rest k

/-- `gen_records[key] = sample`: Python dict assignment — replace in place if
the key exists, else append. -/
def SeqStore.insertPy (st : SeqStore) (k : String) (v : SeqSample) : SeqStore :=
  match st with
  | [] => [(k, v)]
  | (k', v') :: rest =>
    if k' = k then (k', v) :: rest else (k', v') :: SeqStore.insertPy rest k v

/-- Lines 699-723: the sequence path's collation.  Each record file is
opened WITHOUT a try/except, so an unloadable record propagates as an error;
on success the sample is stored unconditionally (a colliding key is
overwritten). -/
def seq_collate (ext : Ext) (fs : FS) :
    List RecordPath → SeqStore → Except String SeqStore
  | [], st => .ok st
  | rp :: rest, st =>
    match fs.records rp with
    | none => .error "json load failed"
    | some jd =>
      let image_path := rp.dir ++ "/" ++ jd.cam_image_array
      let sample : SeqSample :=
        { record_path := rp
          image_path := image_path
          tub_path := rp.dir
          index := ext.get_image_index jd.cam_image_array
          angle := jd.user_angle
          throttle := jd.user_throttle
          target_output := [jd.user_angle, jd.user_throttle]
          img_data := none }
      let key := make_key sample.tub_path sample.index
      seq_collate ext fs rest (SeqStore.insertPy st key sample)

/-- Lines 740-747: starting from `sample`, look up the `target_len` offset
keys in order; a missing key is `continue` — the offset is skipped, not the
whole window (the window is still discarded afterwards because it comes up
short). -/
def collectSeq (st : SeqStore) (sample : SeqSample) (target_len : Nat) : List SeqSample :=
  (List.range target_len).foldl
    (fun seq i =>
      match SeqStore.find? st (make_next_key sample.tub_path sample.index i) with
      | some s => seq ++ [s]
      | none => seq) []

/-- Lines 738-752: one speculative window per store entry; windows whose
length differs from `target_len` are discarded. -/
def collate_sequences (st : SeqStore) (target_len : Nat) : List (List SeqSample) :=
  st.foldl
    (fun acc e =>
      let seq := collectSeq st e.2 target_len
      if seq.length = target_len then acc ++ [seq] else acc) []

/-- The `--type` argument as the dispatch in `multi_train` sees it. -/
inductive ModelType where
  | linear | latent | categorical | rnn | imu | behavior | threeD | look_ahead
deriving DecidableEq

/-- `sequence_train` (lines 670-754), up to the window collation: the
`assert(not continuous)` of line 676 comes FIRST, before any record is
gathered or read; then the records are collated and windows built
(`target_len` doubled for look_ahead, lines 731-736).  The
split/generator/fit stages that follow consume external randomness and the
external model. -/
def sequence_train (ext : Ext) (fs : FS) (records : List RecordPath)
    (seq_length : Nat) (model_type : ModelType) (continuous : Bool) :
    Except String (List (List SeqSample)) :=
  if continuous then .error "AssertionError: not continuous"
  else
    match seq_collate ext fs records [] with
    | .error e => .error e
    | .ok gen_records =>
      let target_len := if model_type = ModelType.look_ahead then seq_length * 2
                        else seq_length
      .ok (collate_sequences gen_records target_len)

/-- The non-sequence `train` entry (lines 306-522), condensed to the stages
the claims touch: collate, count the partitions, compute steps-per-epoch
(the fixed 100 in continuous mode, line 517), and refuse to start when
`steps_per_epoch < 2` (`go_train`, line 547).  Model compilation and the fit
loop are external. -/
def train (ext : Ext) (categorical : Bool) (fs : FS) (records : List RecordPath)
    (batch_size : Nat) (continuous : Bool) (rng : List Rat) :
    Except String (Store × Nat × Nat) :=
  let gen_records := (collate_records ext categorical fs records [] rng).1
  let num_train := gen_records.countP (fun e => e.2.train == true)
  let num_val := gen_records.countP (fun e => e.2.train == false)
  let steps_per_epoch := if continuous then 100 else num_train / batch_size
  let val_steps := num_val / batch_size
  if steps_per_epoch < 2 then
    .error "Too little data to train. Please record more records."
  else .ok (gen_records, steps_per_epoch, val_steps)

inductive TrainOutcome where
  | normal (store : Store) (steps val_steps : Nat)
  | sequences (ws : List (List SeqSample))

/-- `multi_train` (lines 869-877): `rnn`, `3d` and `look_ahead` go to
`sequence_train`; every other type goes to `train`. -/
def multi_train (ext : Ext) (categorical : Bool) (fs : FS) (records : List RecordPath)
    (batch_size seq_length : Nat) (model_type : ModelType) (continuous : Bool)
    (rng : List Rat) : Except String TrainOutcome :=
  if model_type = ModelType.rnn ∨ model_type = ModelType.threeD
      ∨ model_type = ModelType.look_ahead then
    (sequence_train ext fs records seq_length model_type continuous).map
      TrainOutcome.sequences
  else
    (train ext categorical fs records batch_size continuous rng).map
      (fun r => TrainOutcome.normal r.1 r.2.1 r.2.2)

/-- C10: for the sequence model types, a continuous-mode run fails with the
assertion error for EVERY filesystem and record list — before any record is
read; all other model types dispatch to the non-sequence `train` path, which
is therefore the only way continuous mode is entered. -/
theorem C10_sequence_continuous_asserts (ext : Ext) (categorical : Bool) (fs : FS)
    (records : List RecordPath) (batch_size seq_length : Nat) (mt : ModelType)
    (rng : List Rat)
    (hmt : mt = ModelType.rnn ∨ mt = ModelType.threeD ∨ mt = ModelType.look_ahead) :
    multi_train ext categorical fs records batch_size seq_length mt true rng
        = .error "AssertionError: not continuous" ∧
    (∀ mt', ¬ (mt' = ModelType.rnn ∨ mt' = ModelType.threeD ∨ mt' = ModelType.look_ahead) →
      multi_train ext categorical fs records batch_size seq_length mt' true rng
        = (train ext categorical fs records batch_size true rng).map
            (fun r => TrainOutcome.normal r.1 r.2.1 r.2.2)) := by
  constructor
  · unfold multi_train
    rw [if_pos hmt]
    unfold sequence_train
    rw [if_pos rfl]
    rfl
  · intro mt' hmt'
    unfold multi_train
    rw [if_neg hmt']

/-- Witness for `C10_sequence_continuous_asserts` at the `rnn` type. -/
theorem C10_witness :
    multi_train ext0 false fs4 [rp0] 1 2 ModelType.rnn true []
        = .error "AssertionError: not continuous" :=
  (C10_sequence_continuous_asserts ext0 false fs4 [rp0] 1 2 ModelType.rnn []
    (Or.inl rfl)).1

theorem collectSeq_go (st : SeqStore) (sample : SeqSample) :
    ∀ (l : List Nat) (acc : List SeqSample),
      l.foldl (fun seq i =>
          match SeqStore.find? st (make_next_key sample.tub_path sample.index i) with
          | some s => seq ++ [s]
          | none => seq) acc
        = acc ++ l.filterMap
            (fun i => SeqStore.find? st (make_next_key sample.tub_path sample.index i)) := by
  intro l
  induction l with
  | nil => intro acc; simp
  | cons i l ih =>
    intro acc
    cases hf : SeqStore.find? st (make_next_key sample.tub_path sample.index i) with
    | none => simp [List.foldl_cons, hf, ih, List.filterMap_cons]
    | some s => simp [List.foldl_cons, hf, ih, List.filterMap_cons]

theorem collectSeq_eq (st : SeqStore) (sample : SeqSample) (L : Nat) :
    collectSeq st sample L
      = (List.range L).filterMap
          (fun i => SeqStore.find? st (make_next_key sample.tub_path sample.index i)) := by
  have h := collectSeq_go st sample (List.range L) []
  simpa using h

theorem collate_go (st : SeqStore) (L : Nat) :
    ∀ (l : List (String × SeqSample)) (acc : List (List SeqSample)),
      l.foldl (fun acc e =>
          let seq := collectSeq st e.2 L
          if seq.length = L then acc ++ [seq] else acc) acc
        = acc ++ l.filterMap (fun e =>
            if (collectSeq st e.2 L).length = L then some (collectSeq st e.2 L) else none) := by
  intro l
  induction l with
  | nil => intro acc; simp
  | cons e l ih =>
    intro acc
    by_cases hl : (collectSeq st e.2 L).length = L <;>
      simp [List.foldl_cons, hl, ih, List.filterMap_cons]

theorem collate_sequences_eq (st : SeqStore) (L : Nat) :
    collate_sequences st L
      = st.filterMap (fun e =>
          if (collectSeq st e.2 L).length = L then some (collectSeq st e.2 L) else none) := by
  have h := collate_go st L st []
  simpa using h

/-- Well-formedness of a single-directory sequence store: every entry is
keyed by `make_key` of its own sample, and all samples come from tub `t`
(what `seq_collate` builds for one tub). -/
def SeqStoreWF (st : SeqStore) (t : String) : Prop :=
  ∀ e ∈ st, e.1 = make_key t e.2.index ∧ e.2.tub_path = t

theorem seqstore_find_index (st : SeqStore) (t : String) (hwf : SeqStoreWF st t)
    (n : Nat) (s : SeqSample) (h : SeqStore.find? st (make_key t n) = some s) :
    s.index = n := by
  induction st with
  | nil => cases h
  | cons e rest ih =>
    obtain ⟨k0, s0⟩ := e
    by_cases h0 : k0 = make_key t n
    · have hs : s0 = s := by
        have : SeqStore.find? ((k0, s0) :: rest) (make_key t n) = some s0 := by
          show (if k0 = make_key t n then some s0 else SeqStore.find? rest (make_key t n))
              = some s0
          rw [if_pos h0]
        rw [this] at h
        exact Option.some.inj h
      have hk := (hwf (k0, s0) (List.mem_cons_self _ _)).1
      rw [h0] at hk
      have := make_key_inj_fixed_dir t n s0.index hk
      rw [hs] at this
      exact this.symm
    · have hfr : SeqStore.find? ((k0, s0) :: rest) (make_key t n)
          = SeqStore.find? rest (make_key t n) := by
        show (if k0 = make_key t n then some s0 else SeqStore.find? rest (make_key t n))
            = SeqStore.find? rest (make_key t n)
        rw [if_neg h0]
      rw [hfr] at h
      exact ih (fun e he => hwf e (List.mem_cons_of_mem _ he)) h

theorem filterMap_full_index (st : SeqStore) (t : String) (hwf : SeqStoreWF st t) :
    ∀ (L n : Nat),
      ((List.range' n L).filterMap (fun j => SeqStore.find? st (make_key t j))).length = L →
      ((List.range' n L).filterMap
          (fun j => SeqStore.find? st (make_key t j))).map SeqSample.index
        = List.range' n L ∧
      ∀ i ∈ List.range' n L, (SeqStore.find? st (make_key t i)).isSome := by
  intro L
  induction L with
  | zero => intro n _; exact ⟨by simp, by simp⟩
  | succ L ih =>
    intro n hlen
    rw [List.range'_succ] at hlen ⊢
    cases hh : SeqStore.find? st (make_key t n) with
    | none =>
      exfalso
      simp only [List.filterMap_cons, hh, List.length_cons] at hlen
      have hle := List.length_filterMap_le (fun j => SeqStore.find? st (make_key t j))
        (List.range' (n + 1) L)
      rw [List.length_range'] at hle
      omega
    | some s =>
      have hidx : s.index = n := seqstore_find_index st t hwf n s hh
      simp only [List.filterMap_cons, hh, List.length_cons] at hlen ⊢
      have hlen' : ((List.range' (n + 1) L).filterMap
          (fun j => SeqStore.find? st (make_key t j))).length = L := by
        simpa using hlen
      obtain ⟨hmap, hsome⟩ := ih (n + 1) hlen'
      refine ⟨by simp [hmap, hidx], ?_⟩
      intro i hi
      rcases List.mem_cons.mp hi with hi | hi'
      · rw [hi, hh]; rfl
      · exact hsome i hi'

/-- Concrete fixtures: a tub "t" with 10 contiguous frames, and the same tub
with frame 5 missing. -/
def fs10 : FS :=
  { records := fun rp =>
      if rp.dir = "t" ∧ rp.idx < 10 then
        some { cam_image_array := toString rp.idx, user_angle := 0, user_throttle := 0
               imu := none, behavior := none }
      else none
    files := fun _ => true }

def recs10 : List RecordPath := (List.range 10).map (fun i => ⟨"t", i⟩)

def store10 : SeqStore :=
  match seq_collate ext0 fs10 recs10 [] with
  | .ok st => st
  | .error _ => []

def fs9 : FS :=
  { records := fun rp =>
      if rp.dir = "t" ∧ rp.idx < 10 ∧ ¬ rp.idx = 5 then
        some { cam_image_array := toString rp.idx, user_angle := 0, user_throttle := 0
               imu := none, behavior := none }
      else none
    files := fun _ => true }

def recs9 : List RecordPath :=
  [0, 1, 2, 3, 4, 6, 7, 8, 9].map (fun i => ⟨"t", i⟩)

def store9 : SeqStore :=
  match seq_collate ext0 fs9 recs9 [] with
  | .ok st => st
  | .error _ => []

/-- C9: the sequence assembler built over a 10-contiguous-frame tub with
L = 4 yields exactly 7 windows (one per valid start offset); and over any
well-formed single-tub store, every produced window of length L covers L
consecutive frame indices that all exist in the store — so no window can
span a gap. -/
theorem C9_sequence_windows :
    (collate_sequences store10 4).length = 7 ∧
    (∀ (st : SeqStore) (t : String) (L : Nat), SeqStoreWF st t →
      ∀ seq ∈ collate_sequences st L,
        seq.length = L ∧
        ∃ start, seq.map SeqSample.index = List.range' start L ∧
          ∀ i ∈ List.range' start L, (SeqStore.find? st (make_key t i)).isSome) := by
  constructor
  · decide
  · intro st t L hwf seq hseq
    rw [collate_sequences_eq] at hseq
    obtain ⟨e, he, hmap⟩ := List.mem_filterMap.mp hseq
    by_cases hlen : (collectSeq st e.2 L).length = L
    · rw [if_pos hlen] at hmap
      have hcoll : collectSeq st e.2 L = seq := Option.some.inj hmap
      have htub : e.2.tub_path = t := (hwf e he).2
      have hfun : (fun i => SeqStore.find? st (make_next_key e.2.tub_path e.2.index i))
          = ((fun j => SeqStore.find? st (make_key t j)) ∘ (e.2.index + ·)) := by
        funext i
        simp only [Function.comp]
        rw [show make_next_key e.2.tub_path e.2.index i = make_key t (e.2.index + i) from by
          rw [htub]; rfl]
      have hcs : collectSeq st e.2 L
          = (List.range' e.2.index L).filterMap (fun j => SeqStore.find? st (make_key t j)) := by
        rw [collectSeq_eq, hfun, ← List.filterMap_map, ← List.range'_eq_map_range]
      rw [hcs] at hcoll hlen
      obtain ⟨hidx, hsome⟩ := filterMap_full_index st t hwf L e.2.index hlen
      rw [hcoll] at hidx
      exact ⟨by rw [← hcoll]; exact hlen, e.2.index, hidx, hsome⟩
    · rw [if_neg hlen] at hmap
      cases hmap

/-- Witness for `C9_sequence_windows`: in the gapped tub (frame 5 missing),
the first produced window covers 4 consecutive existing frames. -/
theorem C9_witness :
    ((collate_sequences store9 4).headD []).length = 4 ∧
    ∃ start, ((collate_sequences store9 4).headD []).map SeqSample.index
        = List.range' start 4 ∧
      ∀ i ∈ List.range' start 4, (SeqStore.find? store9 (make_key "t" i)).isSome := by
  have hmem : ((collate_sequences store9 4).headD []) ∈ collate_sequences store9 4 := by
    cases hc : collate_sequences store9 4 with
    | nil =>
      exfalso
      have h3 : (collate_sequences store9 4).length = 3 := by decide
      rw [hc] at h3
      cases h3
    | cons w ws =>
      exact List.mem_cons_self _ _
  exact C9_sequence_windows.2 store9 "t" 4
    (by
      show ∀ e ∈ store9, e.1 = make_key "t" e.2.index ∧ e.2.tub_path = "t"
      decide) _ hmem

/-! ## The sequence generator's per-window example (train.py lines 778-830) -/

/-- Python list indexing with negative wrap (`seq[-1]`); out-of-range access
raises and is modelled as `none`. -/
def pyGet (l : List SeqSample) (i : Int) : Option SeqSample :=
  if i < 0 then
    if (-i).toNat ≤ l.length then l.get? (l.length - (-i).toNat) else none
  else l.get? i.toNat

/-- The per-window accumulators of lines 779-782. -/
structure SeqEx where
  inputs_img : List NpArr
  vec_in : List Rat
  vec_out : List Rat

/-- Lines 791-804: fetch the record's image while fewer than
`num_images_target` frames are collected: reuse the cached array or load it
(a failed load is the `break` — `none`); augmentation applies on a fresh
load.  (The `cfg.CACHE_IMAGES` write-back into the shared sample dict only
caches; it does not change any value the claims observe and is not modelled
here.) -/
def seqImgStep (ext : Ext) (aug : Bool) (num_images_target : Nat)
    (imgs : List NpArr) (r : SeqSample) : Option (List NpArr) :=
  if imgs.length < num_images_target then
    match r.img_data with
    | none =>
      match ext.load_scaled_image_arr r.image_path with
      | none => none
      | some a0 => some (imgs ++ [if aug then ext.augment_image a0 else a0])
    | some a => some (imgs ++ [a])
  else some imgs

/-- Lines 789-811, the `for iRec, record in enumerate(seq)` loop: image step
first (its failure is the `break` that abandons the rest of the window),
then the control split — records with `iRec >= iTargetOutput` push their
angle and throttle onto `vec_out`, earlier records push two zero fillers
onto `vec_in` (the real control values are commented out in the source). -/
def seqLoopGo (ext : Ext) (aug : Bool) (num_images_target : Nat) (iTargetOutput : Int) :
    List SeqSample → Nat → SeqEx → SeqEx
  | [], _, acc => acc
  | r :: rest, iRec, acc =>
    match seqImgStep ext aug num_images_target acc.inputs_img r with
    | none => acc
    | some imgs =>
      let acc' :=
        if (iRec : Int) ≥ iTargetOutput then
          { acc with inputs_img := imgs, vec_out := acc.vec_out ++ [r.angle, r.throttle] }
        else
          { acc with inputs_img := imgs, vec_in := acc.vec_in ++ [0, 0] }
      seqLoopGo ext aug num_images_target iTargetOutput rest (iRec + 1) acc'

/-- Lines 783-818 for one window `seq`: in look-ahead mode the image budget
is `SEQUENCE_LENGTH` and the pivot is `SEQUENCE_LENGTH - 1`; otherwise every
frame is imaged and the pivot is `-1`.  The label is the pivot frame's
`target_output` (`seq[-1]` in plain mode), replaced by the collected
`vec_out` in look-ahead mode. -/
def seqExample (ext : Ext) (aug look_ahead : Bool) (L : Nat) (seq : List SeqSample) :
    SeqEx × List Rat :=
  let num_images_target := if look_ahead then L else seq.length
  let iTargetOutput : Int := if look_ahead then (L : Int) - 1 else -1
  let ex := seqLoopGo ext aug num_images_target iTargetOutput seq 0
    { inputs_img := [], vec_in := [], vec_out := [] }
  let label_vec := ((pyGet seq iTargetOutput).map SeqSample.target_output).getD []
  (ex, if look_ahead then ex.vec_out else label_vec)

theorem seqImgStep_isSome (ext : Ext) (aug : Bool) (N : Nat) (imgs : List NpArr)
    (r : SeqSample) (h : (r.img_data).isSome) :
    (seqImgStep ext aug N imgs r).isSome := by
  unfold seqImgStep
  cases hh : r.img_data with
  | none => rw [hh] at h; cases h
  | some a => split <;> simp [hh]

theorem seqLoopGo_cons_some (ext : Ext) (aug : Bool) (N : Nat) (T : Int)
    (r : SeqSample) (rest : List SeqSample) (iRec : Nat) (acc : SeqEx)
    (imgs : List NpArr)
    (himgs : seqImgStep ext aug N acc.inputs_img r = some imgs) :
    seqLoopGo ext aug N T (r :: rest) iRec acc
      = seqLoopGo ext aug N T rest (iRec + 1)
          (if (iRec : Int) ≥ T then
            { acc with inputs_img := imgs, vec_out := acc.vec_out ++ [r.angle, r.throttle] }
          else { acc with inputs_img := imgs, vec_in := acc.vec_in ++ [0, 0] }) := by
  show (match seqImgStep ext aug N acc.inputs_img r with
        | none => acc
        | some imgs =>
          seqLoopGo ext aug N T rest (iRec + 1)
            (if (iRec : Int) ≥ T then
              { acc with inputs_img := imgs, vec_out := acc.vec_out ++ [r.angle, r.throttle] }
            else { acc with inputs_img := imgs, vec_in := acc.vec_in ++ [0, 0] }))
      = _
  rw [himgs]

theorem seqLoopGo_split (ext : Ext) (aug : Bool) (N : Nat) (T : Int) :
    ∀ (seq : List SeqSample) (iRec : Nat) (acc : SeqEx),
      (∀ r ∈ seq, (r.img_data).isSome) →
      (seqLoopGo ext aug N T seq iRec acc).vec_out
          = acc.vec_out
            ++ (seq.drop (T - iRec).toNat).flatMap (fun r => [r.angle, r.throttle]) ∧
      (seqLoopGo ext aug N T seq iRec acc).vec_in
          = acc.vec_in ++ List.replicate (2 * min (T - iRec).toNat seq.length) 0 := by
  intro seq
  induction seq with
  | nil => intro iRec acc _; simp [seqLoopGo]
  | cons r rest ih =>
    intro iRec acc hcached
    have hr := hcached r (List.mem_cons_self _ _)
    obtain ⟨imgs, himgs⟩ := Option.isSome_iff_exists.mp
      (seqImgStep_isSome ext aug N acc.inputs_img r hr)
    rw [seqLoopGo_cons_some ext aug N T r rest iRec acc imgs himgs]
    have htail := fun acc' => ih (iRec + 1) acc'
      (fun x hx => hcached x (List.mem_cons_of_mem _ hx))
    by_cases hT : (iRec : Int) ≥ T
    · rw [if_pos hT]
      obtain ⟨ho, hi⟩ := htail _
      have hd0 : (T - (iRec : Int)).toNat = 0 := by omega
      have hd1 : (T - ((iRec + 1 : Nat) : Int)).toNat = 0 := by
        push_cast
        omega
      constructor
      · rw [ho]
        simp only [hd0, hd1, List.drop_zero]
        simp [List.append_assoc]
      · rw [hi]
        simp only [hd0, hd1]
        simp
    · rw [if_neg hT]
      obtain ⟨ho, hi⟩ := htail _
      have hd : (T - (iRec : Int)).toNat = (T - ((iRec + 1 : Nat) : Int)).toNat + 1 := by
        push_cast
        omega
      constructor
      · rw [ho]
        simp only [hd]
        simp [List.drop_succ_cons]
      · rw [hi]
        simp only [hd, List.length_cons]
        have hmin : min ((T - ((iRec + 1 : Nat) : Int)).toNat + 1) (rest.length + 1)
            = min (T - ((iRec + 1 : Nat) : Int)).toNat rest.length + 1 := by omega
        rw [hmin, show 2 * (min (T - ((iRec + 1 : Nat) : Int)).toNat rest.length + 1)
            = 2 + 2 * min (T - ((iRec + 1 : Nat) : Int)).toNat rest.length from by ring,
          ← List.append_replicate_replicate, List.append_assoc]
        rfl

theorem flatMap_pair_length (l : List SeqSample) :
    (l.flatMap (fun r => [r.angle, r.throttle])).length = 2 * l.length := by
  induction l with
  | nil => rfl
  | cons r rest ih =>
    simp only [List.flatMap_cons, List.length_append, List.length_cons, ih]
    simp
    omega

/-- C5 (amended): in look-ahead mode over a window of length 2L (L ≥ 1, all
frames cached), the training target is the concatenation of the control
pairs of records L-1 through 2L-1 — the second half of the window PLUS the
record just before it, i.e. L+1 pairs, matching the source's reshape to
`(SEQUENCE_LENGTH + 1) * 2` — and only the first L-1 records' control values
are replaced by zero fillers in `vec_in`. -/
theorem C5_look_ahead_target (ext : Ext) (aug : Bool) (L : Nat) (seq : List SeqSample)
    (hL : 1 ≤ L) (hlen : seq.length = 2 * L)
    (hcached : ∀ r ∈ seq, (r.img_data).isSome) :
    (seqExample ext aug true L seq).2
        = (seq.drop (L - 1)).flatMap (fun r => [r.angle, r.throttle]) ∧
    (seqExample ext aug true L seq).2.length = (L + 1) * 2 ∧
    (seqExample ext aug true L seq).1.vec_in = List.replicate (2 * (L - 1)) 0 := by
  have hT : (((L : Int) - 1) - ((0 : Nat) : Int)).toNat = L - 1 := by
    push_cast
    omega
  obtain ⟨ho, hi⟩ := seqLoopGo_split ext aug L ((L : Int) - 1) seq 0
    { inputs_img := [], vec_in := [], vec_out := [] } hcached
  have h2 : (seqExample ext aug true L seq).2
      = (seqLoopGo ext aug L ((L : Int) - 1) seq 0
          { inputs_img := [], vec_in := [], vec_out := [] }).vec_out := by
    simp [seqExample]
  have h1 : (seqExample ext aug true L seq).1
      = seqLoopGo ext aug L ((L : Int) - 1) seq 0
          { inputs_img := [], vec_in := [], vec_out := [] } := by
    simp [seqExample]
  refine ⟨?_, ?_, ?_⟩
  · rw [h2, ho, hT]
    simp
  · rw [h2, ho, hT]
    simp only [List.nil_append]
    rw [flatMap_pair_length, List.length_drop, hlen]
    omega
  · rw [h1, hi, hT, hlen]
    have hmin : min (L - 1) (2 * L) = L - 1 := by omega
    rw [hmin]
    simp

def mkSS (i : Nat) (a t : Rat) : SeqSample :=
  { record_path := ⟨"t", i⟩, image_path := "t/img", tub_path := "t", index := i
    angle := a, throttle := t, target_output := [a, t], img_data := some (.scalar 0) }

def seqC : List SeqSample := [mkSS 0 0 10, mkSS 1 1 11, mkSS 2 2 12, mkSS 3 3 13]

/-- C5 fails as stated: for L = 2 (window length 4), the look-ahead target
holds THREE control pairs — those of records 1, 2 and 3, the second half
plus the record just before it — not exactly the second half's two pairs,
and only the first L-1 = 1 record's controls are zeroed (two filler zeros,
not 2L = 4). -/
theorem C5_counterexample :
    (seqExample ext0 false true 2 seqC).2 = [1, 11, 2, 12, 3, 13] ∧
    (seqC.drop 2).flatMap (fun r => [r.angle, r.throttle]) = [2, 12, 3, 13] ∧
    (seqExample ext0 false true 2 seqC).2.length = 6 ∧ ¬ (6 : Nat) = 2 * 2 ∧
    (seqExample ext0 false true 2 seqC).1.vec_in.length = 2 ∧ ¬ (2 : Nat) = 2 * 2 := by
  refine ⟨rfl, rfl, rfl, by decide, rfl, by decide⟩

/-- Witness for `C5_look_ahead_target` on the concrete four-frame window. -/
theorem C5_witness :
    (seqExample ext0 false true 2 seqC).2.length = (2 + 1) * 2 := by
  have h := C5_look_ahead_target ext0 false 2 seqC (by decide) rfl (by decide)
  exact h.2.1

end TrainSpec
